import Mathlib

/-!
Shallow embedding of the `linalg` Rust library (src/src/lib.rs) and proofs of
the specification claims about it.

Modelling conventions:
- Elements of type `f64` are embedded as exact rationals `ℚ` for the claims
  about shapes, error behaviour and the arithmetic-independent structure of
  the algorithms, which the code expresses through ordinary `+`, `*` and `==`
  on elements. Claims whose truth depends on IEEE 754 special values (NaN
  never comparing equal, NaN propagation through arithmetic) are settled over
  the partial IEEE model `F64` declared further down.
- A Rust `panic!` is modelled as `Except.error` with `recoverable := false`;
  a Rust `Result::Err` is modelled as `Except.error` with `recoverable := true`.
- Loops that fill every cell of a freshly allocated row-major buffer exactly
  once are embedded as the row-major table of the per-cell expression
  (`mkData` below): offset `t` of the buffer holds the value written for cell
  `(t / cols, t % cols)`.
-/

/-- Square Mathlib matrices over `ℚ`, used as the semantic model when proving
algebraic facts about the embedded operations. -/
abbrev MMat (n : Nat) := Matrix (Fin n) (Fin n) ℚ

namespace Linalg

/-- Kind and text of a failure. `recoverable := true` corresponds to a Rust
`Result::Err`, `recoverable := false` to a Rust `panic!`. -/
structure Failure where
  recoverable : Bool
  msg : String
deriving DecidableEq, Repr

/-- The matrix representation of src/src/lib.rs: shape plus a flat row-major
buffer (`data: Vec<f64>`), element (i, j) at offset `i * cols + j`. -/
structure Matrix where
  rows : Nat
  cols : Nat
  data : List ℚ
deriving DecidableEq, Repr

/-- Row-major table of `f`: offset `t` (for `t < R * C`) holds `f (t / C) (t % C)`,
so cell `(i, j)` with `i < R`, `j < C` lives at offset `i * C + j` and holds
`f i j`. This is the net effect of the nested `for i { for j { buf[i*C+j] = f i j } }`
fill loops used throughout the source. -/
def mkData (R C : Nat) (f : Nat → Nat → ℚ) : List ℚ :=
  (List.range (R * C)).map (fun t => f (t / C) (t % C))

/-- Reading element (i, j) of the flat buffer (`self.data[i * self.cols + j]`).
Total with default 0; bounds-checked access is `index` below. -/
def Matrix.get (m : Matrix) (i j : Nat) : ℚ :=
  m.data.getD (i * m.cols + j) 0

/-- Matrix::from_scalar: a `rows × cols` matrix with every element `val`
(`vec![val; n_cols * n_rows]`). -/
def from_scalar (n_rows n_cols : Nat) (val : ℚ) : Matrix :=
  { rows := n_rows, cols := n_cols, data := List.replicate (n_cols * n_rows) val }

/-- Matrix::from_2d_vec: checks the outer length against `n_rows`, each row
length against `n_cols`, and on success concatenates the rows into the flat
buffer. The source returns the first error it meets while walking the rows;
since both inner failures carry the same message, checking all rows with
`List.any` yields the same result. -/
def from_2d_vec (n_rows n_cols : Nat) (data : List (List ℚ)) : Except Failure Matrix :=
  if data.length ≠ n_rows then
    .error ⟨true, "Inconsistent row length"⟩
  else if data.any (fun row => row.length ≠ n_cols) then
    .error ⟨true, "Inconsistent column length"⟩
  else
    .ok { rows := n_rows, cols := n_cols, data := data.flatten }

/-- Matrix::identity: zeros with 1.0 written on the main diagonal. -/
def identity (size : Nat) : Matrix :=
  { rows := size, cols := size,
    data := mkData size size (fun i j => if i = j then 1 else 0) }

/-- Matrix::shape. -/
def Matrix.shape (m : Matrix) : Nat × Nat := (m.rows, m.cols)

/-- Matrix::transpose: result has shape `(cols, rows)` and `ret[(i, j)] = self[(j, i)]`. -/
def transpose (m : Matrix) : Matrix :=
  { rows := m.cols, cols := m.rows,
    data := mkData m.cols m.rows (fun i j => m.get j i) }

/-- Message of the panic in `Index`/`IndexMut` for Matrix. -/
def indexMsg (m : Matrix) (i j : Nat) : String :=
  "index out of bounds: the shape is (" ++ toString m.rows ++ ", " ++ toString m.cols ++
    ") but the index is (" ++ toString i ++ ", " ++ toString j ++ ")."

/-- Index for Matrix: bounds-checked element read; out of bounds panics with
the shape and the offending index. -/
def index (m : Matrix) (i j : Nat) : Except Failure ℚ :=
  if i < m.rows ∧ j < m.cols then
    .ok (m.data.getD (i * m.cols + j) 0)
  else
    .error ⟨false, indexMsg m i j⟩

/-- IndexMut for Matrix, used as an assignment target: the net effect of
`m[(i, j)] = v` is writing `v` at flat offset `i * cols + j` after the same
bounds check as `index`. -/
def index_set (m : Matrix) (i j : Nat) (v : ℚ) : Except Failure Matrix :=
  if i < m.rows ∧ j < m.cols then
    .ok { m with data := m.data.set (i * m.cols + j) v }
  else
    .error ⟨false, indexMsg m i j⟩

/-- PartialEq for Matrix: false on differing shapes, otherwise an element-wise
scan over all in-bounds positions with exact element equality. -/
def eq (a b : Matrix) : Bool :=
  if a.shape = b.shape then
    (List.range a.rows).all (fun i =>
      (List.range a.cols).all (fun j => a.get i j = b.get i j))
  else
    false

/-- Message of the panic in `Add` for mismatched shapes. -/
def addMsg (a b : Matrix) : String :=
  "Matrices of different shapes cannot be added together. Left(" ++
    toString a.rows ++ ", " ++ toString a.cols ++ "), Right(" ++
    toString b.rows ++ ", " ++ toString b.cols ++ ")"

/-- Add for Matrix: panics unless both shapes agree, otherwise zips the two
buffers with element-wise `+`. -/
def add (a b : Matrix) : Except Failure Matrix :=
  if a.rows ≠ b.rows ∨ a.cols ≠ b.cols then
    .error ⟨false, addMsg a b⟩
  else
    .ok { rows := a.rows, cols := a.cols,
          data := List.zipWith (fun x y => x + y) a.data b.data }

/-- Message of the panic in `Mul`/`MulAssign` for incompatible shapes. -/
def mulMsg (a b : Matrix) : String :=
  "LHS cols must be same as RHS rows to multiply. LHS: (" ++
    toString a.rows ++ "," ++ toString a.cols ++ "), RHS: (" ++
    toString b.rows ++ ", " ++ toString b.cols ++ ")"

/-- Body of `Mul` after the shape check: `out` is `self.rows × rhs.cols` and
`out[(i, j)]` accumulates `el += self[(i, k)] * rhs[(k, j)]` for
`k = 0 .. self.cols - 1`, starting from `el = 0.`. -/
def mul_unchecked (a b : Matrix) : Matrix :=
  { rows := a.rows, cols := b.cols,
    data := mkData a.rows b.cols (fun i j =>
      (List.range a.cols).foldl (fun el k => el + a.get i k * b.get k j) 0) }

/-- Mul for Matrix: panics unless `self.cols == rhs.rows`, then computes the
product. -/
def mul (a b : Matrix) : Except Failure Matrix :=
  if a.cols ≠ b.rows then
    .error ⟨false, mulMsg a b⟩
  else
    .ok (mul_unchecked a b)

/-- MulAssign for Matrix: same check and same computation as `Mul`, the result
replacing the left operand. -/
def mul_assign (a b : Matrix) : Except Failure Matrix :=
  if a.cols ≠ b.rows then
    .error ⟨false, mulMsg a b⟩
  else
    .ok (mul_unchecked a b)

/-- Mul of a Matrix by a scalar (`Mul<f64> for Matrix`, and `Mul<Matrix> for
f64` delegates to it): every element multiplied in place by the scalar. -/
def mul_scalar (a : Matrix) (s : ℚ) : Matrix :=
  { a with data := a.data.map (fun el => el * s) }

/-- Matrix::pow_helper with the source recursion, every `*` going through the
checked multiplication `mul`: `e == 0` returns identity, even `e` recurses on
the square, odd `e` multiplies by `mat` on the left. Exponents reaching
`pow_helper` are non-negative (`pow` filtered the rest), so the exponent is a
`Nat` and `e / 2` is the integer division of the source. -/
def pow_helper (mat : Matrix) (e : Nat) : Except Failure Matrix :=
  if h : e = 0 then
    .ok (identity mat.rows)
  else if e % 2 = 0 then
    Except.bind (mul mat mat) (fun sq => pow_helper sq (e / 2))
  else
    Except.bind (mul mat mat) (fun sq =>
      Except.bind (pow_helper sq (e / 2)) (fun r => mul mat r))
termination_by e
decreasing_by
  all_goals exact Nat.div_lt_self (Nat.pos_of_ne_zero h) (by norm_num)

/-- Total mirror of `pow_helper` built on `mul_unchecked`; for square inputs
the two agree (`pow_helper_eq_total` below), every inner multiplication being
between square matrices of the same size. -/
def pow_helper_total (mat : Matrix) (e : Nat) : Matrix :=
  if h : e = 0 then
    identity mat.rows
  else if e % 2 = 0 then
    pow_helper_total (mul_unchecked mat mat) (e / 2)
  else
    mul_unchecked mat (pow_helper_total (mul_unchecked mat mat) (e / 2))
termination_by e
decreasing_by
  all_goals exact Nat.div_lt_self (Nat.pos_of_ne_zero h) (by norm_num)

/-- Matrix::pow: panics when the matrix is not square; exponent 0 returns the
identity of the same size; a negative exponent panics; otherwise delegates to
`pow_helper`. -/
def pow (m : Matrix) (e : Int) : Except Failure Matrix :=
  if m.rows ≠ m.cols then
    .error ⟨false, "Can only raise square matrices to a power."⟩
  else if e = 0 then
    .ok (identity m.rows)
  else if e < 0 then
    .error ⟨false, "Can only raise matrices to a positive power."⟩
  else
    pow_helper m e.toNat

/-- Shorthand: `m` has square shape `n × n` (content unconstrained). -/
def SqShape (n : Nat) (m : Matrix) : Prop := m.rows = n ∧ m.cols = n

/-- Interpretation of an embedded matrix as an `n × n` Mathlib matrix,
reading every cell through `Matrix.get`. -/
def toM (n : Nat) (m : Matrix) : MMat n := fun i j => m.get i j

/-- Sample 2 × 2 matrix `[[1, 2], [3, 4]]` used to instantiate theorems with
hypotheses at a concrete input. -/
def sampleA : Matrix := ⟨2, 2, [1, 2, 3, 4]⟩

/-!
IEEE layer. The claims about the library's `==` (`PartialEq`) depend on IEEE
754 special values: `NaN != NaN` holds in f64, so the equality of the source
is not reflexive on NaN-containing matrices, and matrix products can produce
NaN. The carrier `F64` below models exactly that part of f64: NaN and the two
infinities with their IEEE propagation rules. Finite values carry an exact
rational; rounding and overflow of finite results are not modelled, and
signed zero is collapsed (`-0.0 == 0.0` is true in IEEE, so `==` cannot
distinguish them). The definitions over `F64` re-embed, unchanged except for
the carrier, the source operations the IEEE-sensitive claims mention. -/

/-- Partial model of an f64 value: an exact finite value, the two infinities,
or NaN. -/
inductive F64 : Type where
  | fin (q : ℚ)
  | inf
  | neginf
  | nan
deriving DecidableEq, Repr

/-- IEEE `==` on f64: NaN compares unequal to everything, itself included;
infinities compare equal to themselves; finite values by value. The source's
`!=` (lib.rs:198) is its negation. -/
def F64.beq : F64 → F64 → Bool
  | .fin a, .fin b => a = b
  | .inf, .inf => true
  | .neginf, .neginf => true
  | _, _ => false

/-- IEEE `+` on f64 special values: NaN propagates, `inf + (-inf)` is NaN,
an infinity absorbs finite addends. Finite addition is exact (rounding and
overflow to infinity not modelled). -/
def F64.add : F64 → F64 → F64
  | .nan, _ => .nan
  | _, .nan => .nan
  | .inf, .neginf => .nan
  | .neginf, .inf => .nan
  | .inf, _ => .inf
  | _, .inf => .inf
  | .neginf, _ => .neginf
  | _, .neginf => .neginf
  | .fin a, .fin b => .fin (a + b)

/-- IEEE `*` on f64 special values: NaN propagates, infinities multiply by
sign, `inf * 0` is NaN. Finite multiplication is exact (rounding and overflow
not modelled). -/
def F64.mul : F64 → F64 → F64
  | .nan, _ => .nan
  | _, .nan => .nan
  | .inf, .inf => .inf
  | .inf, .neginf => .neginf
  | .neginf, .inf => .neginf
  | .neginf, .neginf => .inf
  | .inf, .fin b => if 0 < b then .inf else if b < 0 then .neginf else .nan
  | .fin a, .inf => if 0 < a then .inf else if a < 0 then .neginf else .nan
  | .neginf, .fin b => if 0 < b then .neginf else if b < 0 then .inf else .nan
  | .fin a, .neginf => if 0 < a then .neginf else if a < 0 then .inf else .nan
  | .fin a, .fin b => .fin (a * b)

/-- The matrix representation of src/src/lib.rs over the IEEE carrier. -/
structure FMatrix where
  rows : Nat
  cols : Nat
  data : List F64
deriving DecidableEq, Repr

/-- Row-major table over `F64`, exactly as `mkData` over `ℚ`. -/
def mkDataF (R C : Nat) (f : Nat → Nat → F64) : List F64 :=
  (List.range (R * C)).map (fun t => f (t / C) (t % C))

/-- Reading element (i, j) of the flat buffer, as `Matrix.get`. -/
def FMatrix.get (m : FMatrix) (i j : Nat) : F64 :=
  m.data.getD (i * m.cols + j) (.fin 0)

/-- Matrix::shape over the IEEE carrier. -/
def FMatrix.shape (m : FMatrix) : Nat × Nat := (m.rows, m.cols)

/-- Matrix::from_scalar over the IEEE carrier (`vec![val; n_cols * n_rows]`);
`from_scalar(1, 1, f64::NAN)` is a legal public-API call. -/
def ffrom_scalar (n_rows n_cols : Nat) (val : F64) : FMatrix :=
  { rows := n_rows, cols := n_cols, data := List.replicate (n_cols * n_rows) val }

/-- Matrix::identity over the IEEE carrier. -/
def fidentity (size : Nat) : FMatrix :=
  { rows := size, cols := size,
    data := mkDataF size size (fun i j => if i = j then .fin 1 else .fin 0) }

/-- Matrix::transpose over the IEEE carrier. -/
def ftranspose (m : FMatrix) : FMatrix :=
  { rows := m.cols, cols := m.rows,
    data := mkDataF m.cols m.rows (fun i j => m.get j i) }

/-- PartialEq for Matrix over the IEEE carrier: the source returns false as
soon as `self[(i, j)] != rhs[(i, j)]`, `!=` being IEEE not-equal, so the scan
succeeds exactly where IEEE `==` (`F64.beq`) holds element-wise. -/
def feq (a b : FMatrix) : Bool :=
  if a.shape = b.shape then
    (List.range a.rows).all (fun i =>
      (List.range a.cols).all (fun j => F64.beq (a.get i j) (b.get i j)))
  else
    false

/-- Message of the panic in `Mul`/`MulAssign`, as `mulMsg`. -/
def fmulMsg (a b : FMatrix) : String :=
  "LHS cols must be same as RHS rows to multiply. LHS: (" ++
    toString a.rows ++ "," ++ toString a.cols ++ "), RHS: (" ++
    toString b.rows ++ ", " ++ toString b.cols ++ ")"

/-- Body of `Mul` after the shape check, over the IEEE carrier: the same
`el += self[(i, k)] * rhs[(k, j)]` accumulation from `0.`. -/
def fmul_unchecked (a b : FMatrix) : FMatrix :=
  { rows := a.rows, cols := b.cols,
    data := mkDataF a.rows b.cols (fun i j =>
      (List.range a.cols).foldl
        (fun el k => F64.add el (F64.mul (a.get i k) (b.get k j))) (.fin 0)) }

/-- Mul for Matrix over the IEEE carrier. -/
def fmul (a b : FMatrix) : Except Failure FMatrix :=
  if a.cols ≠ b.rows then
    .error ⟨false, fmulMsg a b⟩
  else
    .ok (fmul_unchecked a b)

/-- Matrix::pow_helper over the IEEE carrier, with the source recursion. -/
def fpow_helper (mat : FMatrix) (e : Nat) : Except Failure FMatrix :=
  if h : e = 0 then
    .ok (fidentity mat.rows)
  else if e % 2 = 0 then
    Except.bind (fmul mat mat) (fun sq => fpow_helper sq (e / 2))
  else
    Except.bind (fmul mat mat) (fun sq =>
      Except.bind (fpow_helper sq (e / 2)) (fun r => fmul mat r))
termination_by e
decreasing_by
  all_goals exact Nat.div_lt_self (Nat.pos_of_ne_zero h) (by norm_num)

/-- Matrix::pow over the IEEE carrier, with the source check order. -/
def fpow (m : FMatrix) (e : Int) : Except Failure FMatrix :=
  if m.rows ≠ m.cols then
    .error ⟨false, "Can only raise square matrices to a power."⟩
  else if e = 0 then
    .ok (fidentity m.rows)
  else if e < 0 then
    .error ⟨false, "Can only raise matrices to a positive power."⟩
  else
    fpow_helper m e.toNat

/-- Decidable scan: no element of `m` is NaN (in bounds). -/
def FMatrix.nanFree (m : FMatrix) : Bool :=
  (List.range m.rows).all (fun i =>
    (List.range m.cols).all (fun j => m.get i j ≠ F64.nan))

/-! Basic lemmas about the embedding. -/

theorem mkData_length (R C : Nat) (f : Nat → Nat → ℚ) :
    (mkData R C f).length = R * C := by
  simp [mkData]

theorem mkData_getD (R C : Nat) (f : Nat → Nat → ℚ) {i j : Nat}
    (hi : i < R) (hj : j < C) (d : ℚ) :
    (mkData R C f).getD (i * C + j) d = f i j := by
  have hC : 0 < C := by omega
  have ht : i * C + j < R * C := by
    calc i * C + j < i * C + C := by omega
    _ = (i + 1) * C := by ring
    _ ≤ R * C := Nat.mul_le_mul_right C (by omega)
  have hdiv : (i * C + j) / C = i := by
    rw [Nat.mul_comm i C, Nat.mul_add_div hC, Nat.div_eq_of_lt hj]
    omega
  have hmod : (i * C + j) % C = j := by
    rw [Nat.mul_comm i C, Nat.mul_add_mod, Nat.mod_eq_of_lt hj]
  rw [List.getD_eq_getElem?_getD, mkData, List.getElem?_map]
  simp [List.getElem?_range, ht, hdiv, hmod]

theorem get_mk (R C : Nat) (f : Nat → Nat → ℚ) {i j : Nat}
    (hi : i < R) (hj : j < C) :
    (Matrix.mk R C (mkData R C f)).get i j = f i j := by
  show (mkData R C f).getD (i * C + j) 0 = f i j
  exact mkData_getD R C f hi hj 0

theorem foldl_add_range (f : Nat → ℚ) :
    ∀ (N : Nat) (init : ℚ),
      (List.range N).foldl (fun el k => el + f k) init =
        init + ∑ k in Finset.range N, f k
  | 0, init => by simp
  | N + 1, init => by
    rw [List.range_succ, List.foldl_append, foldl_add_range f N init,
      Finset.sum_range_succ]
    simp [add_assoc]

theorem mul_unchecked_get (a b : Matrix) {i j : Nat}
    (hi : i < a.rows) (hj : j < b.cols) :
    (mul_unchecked a b).get i j = ∑ k in Finset.range a.cols, a.get i k * b.get k j := by
  show (Matrix.mk a.rows b.cols _).get i j = _
  rw [get_mk _ _ _ hi hj, foldl_add_range, zero_add]

theorem eq_true_iff (a b : Matrix) :
    eq a b = true ↔
      (a.shape = b.shape ∧
        ∀ i j, i < a.rows → j < a.cols → a.get i j = b.get i j) := by
  unfold eq
  by_cases h : a.shape = b.shape
  · simp only [h, if_true, List.all_eq_true, List.mem_range, true_and,
      decide_eq_true_eq]
    constructor
    · intro hall i j hi hj
      exact hall i hi j hj
    · intro hall i hi j hj
      exact hall i j hi hj
  · simp [h]

theorem sqShape_mul_unchecked {n : Nat} {a b : Matrix}
    (ha : SqShape n a) (hb : SqShape n b) : SqShape n (mul_unchecked a b) :=
  ⟨ha.1, hb.2⟩

theorem sqShape_identity (n : Nat) : SqShape n (identity n) := ⟨rfl, rfl⟩

theorem toM_mul_unchecked {n : Nat} {a b : Matrix}
    (ha : SqShape n a) (hb : SqShape n b) :
    toM n (mul_unchecked a b) = toM n a * toM n b := by
  funext i j
  show (mul_unchecked a b).get i j = ∑ k : Fin n, toM n a i k * toM n b k j
  rw [mul_unchecked_get a b (ha.1 ▸ i.isLt) (hb.2 ▸ j.isLt), ha.2]
  exact (Fin.sum_univ_eq_sum_range (fun k => a.get i k * b.get k j) n).symm

theorem toM_identity (n : Nat) : toM n (identity n) = 1 := by
  funext i j
  show (identity n).get i j = (1 : MMat n) i j
  rw [identity]
  rw [get_mk n n _ i.isLt j.isLt, Matrix.one_apply]
  simp [Fin.val_inj]

theorem mul_ok {a b : Matrix} (h : a.cols = b.rows) :
    mul a b = Except.ok (mul_unchecked a b) := by
  simp [mul, h]

theorem sqShape_pow_helper_total {n : Nat} :
    ∀ (e : Nat) {m : Matrix}, SqShape n m → SqShape n (pow_helper_total m e) := by
  intro e
  induction e using Nat.strong_induction_on with
  | _ e ih =>
    intro m hm
    unfold pow_helper_total
    split_ifs with h0 h2
    · rw [hm.1]; exact sqShape_identity n
    · exact ih (e / 2) (Nat.div_lt_self (Nat.pos_of_ne_zero h0) (by norm_num))
        (sqShape_mul_unchecked hm hm)
    · exact sqShape_mul_unchecked hm
        (ih (e / 2) (Nat.div_lt_self (Nat.pos_of_ne_zero h0) (by norm_num))
          (sqShape_mul_unchecked hm hm))

theorem toM_pow_helper_total {n : Nat} :
    ∀ (e : Nat) {m : Matrix}, SqShape n m →
      toM n (pow_helper_total m e) = (toM n m) ^ e := by
  intro e
  induction e using Nat.strong_induction_on with
  | _ e ih =>
    intro m hm
    have hdiv : e ≠ 0 → e / 2 < e := fun h0 =>
      Nat.div_lt_self (Nat.pos_of_ne_zero h0) (by norm_num)
    unfold pow_helper_total
    split_ifs with h0 h2
    · rw [hm.1, toM_identity, h0, pow_zero]
    · rw [ih (e / 2) (hdiv h0) (sqShape_mul_unchecked hm hm),
        toM_mul_unchecked hm hm, ← pow_two, ← pow_mul]
      congr 1
      omega
    · rw [toM_mul_unchecked hm
          (sqShape_pow_helper_total (e / 2) (sqShape_mul_unchecked hm hm)),
        ih (e / 2) (hdiv h0) (sqShape_mul_unchecked hm hm),
        toM_mul_unchecked hm hm, ← pow_two, ← pow_mul, ← pow_succ']
      congr 1
      omega

theorem pow_helper_eq_total {n : Nat} :
    ∀ (e : Nat) {m : Matrix}, SqShape n m →
      pow_helper m e = Except.ok (pow_helper_total m e) := by
  intro e
  induction e using Nat.strong_induction_on with
  | _ e ih =>
    intro m hm
    have hdiv : e ≠ 0 → e / 2 < e := fun h0 =>
      Nat.div_lt_self (Nat.pos_of_ne_zero h0) (by norm_num)
    have hmm : mul m m = Except.ok (mul_unchecked m m) :=
      mul_ok (hm.2.trans hm.1.symm)
    unfold pow_helper pow_helper_total
    split_ifs with h0 h2
    · rfl
    · rw [hmm]
      exact ih (e / 2) (hdiv h0) (sqShape_mul_unchecked hm hm)
    · rw [hmm]
      show Except.bind (pow_helper (mul_unchecked m m) (e / 2)) _ = _
      rw [ih (e / 2) (hdiv h0) (sqShape_mul_unchecked hm hm)]
      show mul m (pow_helper_total (mul_unchecked m m) (e / 2)) = _
      exact mul_ok (hm.2.trans
        ((sqShape_pow_helper_total (e / 2) (sqShape_mul_unchecked hm hm)).1).symm)

theorem pow_ok {n : Nat} {m : Matrix} (hm : SqShape n m) {e : Int} (he : 0 ≤ e) :
    pow m e = Except.ok (pow_helper_total m e.toNat) := by
  have hsq : ¬ m.rows ≠ m.cols := by rw [hm.1, hm.2]; simp
  by_cases h0 : e = 0
  · have : e.toNat = 0 := by omega
    rw [pow, if_neg hsq, if_pos h0, this]
    unfold pow_helper_total
    rfl
  · have hneg : ¬ e < 0 := by omega
    rw [pow, if_neg hsq, if_neg h0, if_neg hneg]
    exact pow_helper_eq_total e.toNat hm

theorem transpose_get (m : Matrix) {i j : Nat} (hi : i < m.cols) (hj : j < m.rows) :
    (transpose m).get i j = m.get j i :=
  get_mk m.cols m.rows _ hi hj

theorem eq_of_toM {n : Nat} {a b : Matrix}
    (ha : SqShape n a) (hb : SqShape n b) (h : toM n a = toM n b) :
    eq a b = true := by
  rw [eq_true_iff]
  refine ⟨?_, ?_⟩
  · show (a.rows, a.cols) = (b.rows, b.cols)
    rw [ha.1, ha.2, hb.1, hb.2]
  · intro i j hi hj
    have hi' : i < n := ha.1 ▸ hi
    have hj' : j < n := ha.2 ▸ hj
    have := congrFun (congrFun h ⟨i, hi'⟩) ⟨j, hj'⟩
    exact this

theorem flatten_length_eq (c : Nat) :
    ∀ (d : List (List ℚ)), (∀ row ∈ d, row.length = c) →
      d.flatten.length = d.length * c
  | [], _ => by simp
  | row :: tl, h => by
    rw [List.flatten_cons, List.length_append, h row (by simp),
      flatten_length_eq c tl (fun r hr => h r (by simp [hr])), List.length_cons,
      Nat.succ_mul]
    omega

theorem mul_eq_ok {a b M : Matrix} (h : mul a b = Except.ok M) :
    M = mul_unchecked a b := by
  unfold mul at h
  split_ifs at h
  injection h with h'
  exact h'.symm

theorem mul_unchecked_length (a b : Matrix) :
    (mul_unchecked a b).data.length = (mul_unchecked a b).rows * (mul_unchecked a b).cols := by
  simp [mul_unchecked, mkData_length]

theorem pow_helper_length :
    ∀ (e : Nat) (m M : Matrix), pow_helper m e = Except.ok M →
      M.data.length = M.rows * M.cols := by
  intro e
  induction e using Nat.strong_induction_on with
  | _ e ih =>
    intro m M h
    have hdiv : e ≠ 0 → e / 2 < e := fun h0 =>
      Nat.div_lt_self (Nat.pos_of_ne_zero h0) (by norm_num)
    rw [pow_helper.eq_def] at h
    split_ifs at h with h0 h2
    · injection h with h'
      rw [← h']
      simp [identity, mkData_length]
    · cases hmul : mul m m with
      | error f => rw [hmul] at h; simp [Except.bind] at h
      | ok s =>
        rw [hmul] at h
        simp only [Except.bind] at h
        exact ih (e / 2) (hdiv h0) s M h
    · cases hmul : mul m m with
      | error f => rw [hmul] at h; simp [Except.bind] at h
      | ok s =>
        rw [hmul] at h
        simp only [Except.bind] at h
        cases hrec : pow_helper s (e / 2) with
        | error f => rw [hrec] at h; simp at h
        | ok r =>
          rw [hrec] at h
          simp only at h
          rw [mul_eq_ok h]
          exact mul_unchecked_length m r

theorem flat_index_inj {c i j i' j' : Nat} (hj : j < c) (hj' : j' < c)
    (h : i * c + j = i' * c + j') : i = i' ∧ j = j' := by
  have hc : 0 < c := by omega
  have hj2 : j = j' := by
    have h1 := congrArg (fun t => t % c) h
    simpa [Nat.mul_comm i c, Nat.mul_comm i' c, Nat.mul_add_mod,
      Nat.mod_eq_of_lt hj, Nat.mod_eq_of_lt hj'] using h1
  subst hj2
  have h2 : i * c = i' * c := Nat.add_right_cancel h
  exact ⟨Nat.eq_of_mul_eq_mul_right hc h2, rfl⟩

theorem getD_set_self {l : List ℚ} {n : Nat} (h : n < l.length) (v d : ℚ) :
    (l.set n v).getD n d = v := by
  rw [List.getD_eq_getElem?_getD]
  simp [List.getElem?_set, h]

theorem getD_set_other {l : List ℚ} {n m : Nat} (h : n ≠ m) (v d : ℚ) :
    (l.set n v).getD m d = l.getD m d := by
  rw [List.getD_eq_getElem?_getD, List.getD_eq_getElem?_getD]
  simp [List.getElem?_set, h]

/-! Lemmas about the IEEE layer. -/

theorem mkDataF_getD (R C : Nat) (f : Nat → Nat → F64) {i j : Nat}
    (hi : i < R) (hj : j < C) (d : F64) :
    (mkDataF R C f).getD (i * C + j) d = f i j := by
  have hC : 0 < C := by omega
  have ht : i * C + j < R * C := by
    calc i * C + j < i * C + C := by omega
    _ = (i + 1) * C := by ring
    _ ≤ R * C := Nat.mul_le_mul_right C (by omega)
  have hdiv : (i * C + j) / C = i := by
    rw [Nat.mul_comm i C, Nat.mul_add_div hC, Nat.div_eq_of_lt hj]
    omega
  have hmod : (i * C + j) % C = j := by
    rw [Nat.mul_comm i C, Nat.mul_add_mod, Nat.mod_eq_of_lt hj]
  rw [List.getD_eq_getElem?_getD, mkDataF, List.getElem?_map]
  simp [List.getElem?_range, ht, hdiv, hmod]

theorem fget_mk (R C : Nat) (f : Nat → Nat → F64) {i j : Nat}
    (hi : i < R) (hj : j < C) :
    (FMatrix.mk R C (mkDataF R C f)).get i j = f i j := by
  show (mkDataF R C f).getD (i * C + j) (.fin 0) = f i j
  exact mkDataF_getD R C f hi hj _

theorem ftranspose_get (m : FMatrix) {i j : Nat} (hi : i < m.cols) (hj : j < m.rows) :
    (ftranspose m).get i j = m.get j i :=
  fget_mk m.cols m.rows _ hi hj

theorem F64.beq_refl {x : F64} (h : x ≠ F64.nan) : F64.beq x x = true := by
  cases x with
  | fin q => simp [F64.beq]
  | inf => rfl
  | neginf => rfl
  | nan => exact absurd rfl h

theorem F64.beq_symm (x y : F64) : F64.beq x y = F64.beq y x := by
  cases x <;> cases y <;> simp [F64.beq, eq_comm]

theorem feq_true_iff (a b : FMatrix) :
    feq a b = true ↔
      (a.shape = b.shape ∧
        ∀ i j, i < a.rows → j < a.cols →
          F64.beq (a.get i j) (b.get i j) = true) := by
  unfold feq
  by_cases h : a.shape = b.shape
  · simp only [h, if_true, List.all_eq_true, List.mem_range, true_and]
    constructor
    · intro hall i j hi hj
      exact hall i hi j hj
    · intro hall i hi j hj
      exact hall i j hi hj
  · simp [h]

theorem nanFree_iff (m : FMatrix) :
    m.nanFree = true ↔
      ∀ i j, i < m.rows → j < m.cols → m.get i j ≠ F64.nan := by
  unfold FMatrix.nanFree
  simp only [List.all_eq_true, List.mem_range, decide_eq_true_eq]
  constructor
  · intro hall i j hi hj
    exact hall i hi j hj
  · intro hall i hi j hj
    exact hall i j hi hj

/-! Claim theorems. -/

/-- C1: for every square matrix `A` and exponent `e ≥ 0`, `pow` follows
exponentiation by squaring: `pow A 0` is the identity of the same size
regardless of the content of `A`, and for `e > 0` it equals `pow (A*A) (e/2)`
for even `e` and `A * pow (A*A) (e/2)` for odd `e` (integer division), `*`
being the matrix-multiplication operator, terminating at `e == 0` with
identity. -/
theorem C1_pow_exponentiation_by_squaring (A : Matrix) (e : Int)
    (hsq : A.rows = A.cols) (he : 0 ≤ e) :
    pow A 0 = Except.ok (identity A.rows) ∧
    (e = 0 → pow A e = Except.ok (identity A.rows)) ∧
    ∃ s, mul A A = Except.ok s ∧
      (0 < e → e % 2 = 0 → pow A e = pow s (e / 2)) ∧
      (0 < e → e % 2 = 1 →
        pow A e = Except.bind (pow s (e / 2)) (fun r => mul A r)) := by
  have hm : SqShape A.rows A := ⟨rfl, hsq.symm⟩
  have hmm : SqShape A.rows (mul_unchecked A A) := sqShape_mul_unchecked hm hm
  have h0 : pow A 0 = Except.ok (identity A.rows) := by
    simp [pow, hsq]
  refine ⟨h0, fun hz => by rw [hz]; exact h0,
    mul_unchecked A A, mul_ok hsq.symm, ?_, ?_⟩
  · intro hpos hev
    rw [pow_ok hm he, pow_ok hmm (by omega : (0:Int) ≤ e / 2)]
    congr 1
    rw [(by omega : (e / 2).toNat = e.toNat / 2)]
    conv_lhs => rw [pow_helper_total.eq_def]
    rw [dif_neg (by omega : ¬ e.toNat = 0), if_pos (by omega : e.toNat % 2 = 0)]
  · intro hpos hodd
    rw [pow_ok hmm (by omega : (0:Int) ≤ e / 2)]
    show pow A e = mul A (pow_helper_total (mul_unchecked A A) ((e / 2).toNat))
    rw [mul_ok (hm.2.trans
        ((sqShape_pow_helper_total _ (sqShape_mul_unchecked hm hm)).1).symm),
      pow_ok hm he]
    congr 1
    rw [(by omega : (e / 2).toNat = e.toNat / 2)]
    conv_lhs => rw [pow_helper_total.eq_def]
    rw [dif_neg (by omega : ¬ e.toNat = 0), if_neg (by omega : ¬ e.toNat % 2 = 0)]

/-- Witness for C1 at `A = [[1, 2], [3, 4]]`, `e = 3`. -/
theorem C1_pow_exponentiation_by_squaring_witness :
    pow sampleA 0 = Except.ok (identity sampleA.rows) ∧
    ((3:Int) = 0 → pow sampleA 3 = Except.ok (identity sampleA.rows)) ∧
    ∃ s, mul sampleA sampleA = Except.ok s ∧
      ((0:Int) < 3 → (3:Int) % 2 = 0 → pow sampleA 3 = pow s (3 / 2)) ∧
      ((0:Int) < 3 → (3:Int) % 2 = 1 →
        pow sampleA 3 = Except.bind (pow s ((3:Int) / 2)) (fun r => mul sampleA r)) :=
  C1_pow_exponentiation_by_squaring sampleA 3 rfl (by decide)

/-- C2: matrix multiplication is defined exactly when `A.cols == B.rows`,
failing otherwise with an error reporting both operand shapes; on success the
result has shape `(A.rows, B.cols)` and element (i, j) is the sum over `k` of
`A(i, k) * B(k, j)`, accumulated sequentially as a left fold over
`k = 0 .. A.cols - 1` starting from 0. -/
theorem C2_mul_shape_and_elements (a b : Matrix) :
    (a.cols ≠ b.rows → mul a b = Except.error ⟨false, mulMsg a b⟩) ∧
    (a.cols = b.rows → ∃ M, mul a b = Except.ok M ∧
      M.rows = a.rows ∧ M.cols = b.cols ∧
      ∀ i j, i < a.rows → j < b.cols →
        M.get i j =
          (List.range a.cols).foldl (fun el k => el + a.get i k * b.get k j) 0 ∧
        M.get i j = ∑ k in Finset.range a.cols, a.get i k * b.get k j) := by
  constructor
  · intro h
    simp [mul, h]
  · intro h
    refine ⟨mul_unchecked a b, mul_ok h, rfl, rfl, ?_⟩
    intro i j hi hj
    refine ⟨get_mk a.rows b.cols _ hi hj, mul_unchecked_get a b hi hj⟩

/-- Witness for C2: a 2 × 3 by 3 × 2 product. -/
theorem C2_mul_shape_and_elements_witness :
    ∃ M, mul ⟨2, 3, [1000, 0, 1, 0, 3, 5]⟩ ⟨3, 2, [1, 2, 3, 4, 5, 6]⟩ = Except.ok M ∧
      M.rows = (⟨2, 3, [1000, 0, 1, 0, 3, 5]⟩ : Matrix).rows ∧
      M.cols = (⟨3, 2, [1, 2, 3, 4, 5, 6]⟩ : Matrix).cols ∧
      ∀ i j, i < (⟨2, 3, [1000, 0, 1, 0, 3, 5]⟩ : Matrix).rows →
        j < (⟨3, 2, [1, 2, 3, 4, 5, 6]⟩ : Matrix).cols →
        M.get i j =
          (List.range (⟨2, 3, [1000, 0, 1, 0, 3, 5]⟩ : Matrix).cols).foldl
            (fun el k => el + (⟨2, 3, [1000, 0, 1, 0, 3, 5]⟩ : Matrix).get i k *
              (⟨3, 2, [1, 2, 3, 4, 5, 6]⟩ : Matrix).get k j) 0 ∧
        M.get i j = ∑ k in Finset.range (⟨2, 3, [1000, 0, 1, 0, 3, 5]⟩ : Matrix).cols,
          (⟨2, 3, [1000, 0, 1, 0, 3, 5]⟩ : Matrix).get i k *
            (⟨3, 2, [1, 2, 3, 4, 5, 6]⟩ : Matrix).get k j :=
  (C2_mul_shape_and_elements ⟨2, 3, [1000, 0, 1, 0, 3, 5]⟩ ⟨3, 2, [1, 2, 3, 4, 5, 6]⟩).2 rfl

/-- Counterexample to C7: for the NaN-containing matrix built by the public
API call `from_scalar(1, 1, f64::NAN)`, `transpose(transpose(A)) == A` is
false, because the library's `==` compares NaN to NaN with IEEE equality. -/
theorem C7_counterexample :
    feq (ftranspose (ftranspose (ffrom_scalar 1 1 F64.nan)))
      (ffrom_scalar 1 1 F64.nan) = false := by
  decide

/-- C7 as amended: for every matrix without NaN elements — including
non-square and zero-sized matrices — `transpose(transpose(A)) == A`; the
double transpose restores every element exactly, but a NaN-containing matrix
never compares equal to anything under the library's `==`. -/
theorem C7_transpose_involution_amended (A : FMatrix) (h : A.nanFree = true) :
    feq (ftranspose (ftranspose A)) A = true := by
  rw [feq_true_iff]
  refine ⟨rfl, ?_⟩
  intro i j hi hj
  have hi' : i < A.rows := hi
  have hj' : j < A.cols := hj
  have h1 : (ftranspose (ftranspose A)).get i j = (ftranspose A).get j i :=
    ftranspose_get (ftranspose A) (i := i) (j := j) hi' hj'
  rw [h1, ftranspose_get A hj' hi']
  exact F64.beq_refl ((nanFree_iff A).mp h i j hi' hj')

/-- Witness for the amended C7: a NaN-free non-square matrix. -/
theorem C7_transpose_involution_amended_witness :
    feq (ftranspose (ftranspose (ffrom_scalar 2 3 (F64.fin 0))))
      (ffrom_scalar 2 3 (F64.fin 0)) = true :=
  C7_transpose_involution_amended (ffrom_scalar 2 3 (F64.fin 0)) (by decide)

/-- Counterexample to C3: a shape mismatch during addition is a panic
(`recoverable = false`), not a recoverable failure result, contradicting the
claim at the concrete operands `from_scalar 1 1 0` and `from_scalar 1 2 0`. -/
theorem C3_counterexample :
    ¬ ∃ f, add (from_scalar 1 1 0) (from_scalar 1 2 0) = Except.error f ∧
        f.recoverable = true := by
  rintro ⟨f, hf, hr⟩
  have hcomp : add (from_scalar 1 1 0) (from_scalar 1 2 0) =
      Except.error ⟨false, addMsg (from_scalar 1 1 0) (from_scalar 1 2 0)⟩ := rfl
  rw [hcomp] at hf
  injection hf with h
  rw [← h] at hr
  simp at hr

/-- C3 as amended: `from_2d_vec` reports its shape mismatches as recoverable
failure results with fixed messages that do not mention the shapes, while
shape mismatches during addition and multiplication and out-of-bounds element
access are panics (irrecoverable aborts) whose messages carry the conflicting
shapes, or the index together with the matrix shape. -/
theorem C3_error_reporting_amended :
    (∀ r c (d : List (List ℚ)), d.length ≠ r →
        from_2d_vec r c d = Except.error ⟨true, "Inconsistent row length"⟩) ∧
    (∀ r c (d : List (List ℚ)), d.length = r → (∃ row ∈ d, row.length ≠ c) →
        from_2d_vec r c d = Except.error ⟨true, "Inconsistent column length"⟩) ∧
    (∀ a b : Matrix, a.rows ≠ b.rows ∨ a.cols ≠ b.cols →
        add a b = Except.error ⟨false, addMsg a b⟩) ∧
    (∀ a b : Matrix, a.cols ≠ b.rows →
        mul a b = Except.error ⟨false, mulMsg a b⟩) ∧
    (∀ (m : Matrix) (i j : Nat), ¬ (i < m.rows ∧ j < m.cols) →
        index m i j = Except.error ⟨false, indexMsg m i j⟩) := by
  refine ⟨?_, ?_, ?_, ?_, ?_⟩
  · intro r c d h
    simp [from_2d_vec, h]
  · intro r c d hlen hrow
    have hany : d.any (fun row => decide (row.length ≠ c)) = true := by
      rw [List.any_eq_true]
      obtain ⟨row, hmem, hne⟩ := hrow
      exact ⟨row, hmem, by simpa using hne⟩
    simp [from_2d_vec, hlen, hany]
    exact hrow
  · intro a b h
    unfold add
    rw [if_pos h]
  · intro a b h
    unfold mul
    rw [if_pos h]
  · intro m i j h
    unfold index
    rw [if_neg h]

/-- Witness for the amended C3: the panic of `mul` at a concrete shape
mismatch. -/
theorem C3_error_reporting_amended_witness :
    mul (⟨1, 2, [0, 0]⟩ : Matrix) (⟨3, 1, [0, 0, 0]⟩ : Matrix) =
      Except.error ⟨false, mulMsg ⟨1, 2, [0, 0]⟩ ⟨3, 1, [0, 0, 0]⟩⟩ :=
  C3_error_reporting_amended.2.2.2.1 ⟨1, 2, [0, 0]⟩ ⟨3, 1, [0, 0, 0]⟩ (by decide)

/-- C4: `pow` aborts irrecoverably exactly when the matrix is not square or
the exponent is negative; every square matrix with a non-negative exponent
yields a matrix. -/
theorem C4_pow_fatal_conditions (A : Matrix) (e : Int) :
    (A.rows = A.cols → 0 ≤ e → ∃ M, pow A e = Except.ok M) ∧
    (A.rows ≠ A.cols ∨ e < 0 →
      ∃ f, pow A e = Except.error f ∧ f.recoverable = false) := by
  constructor
  · intro hsq he
    exact ⟨_, pow_ok ⟨rfl, hsq.symm⟩ he⟩
  · intro h
    by_cases hsq : A.rows = A.cols
    · have hneg : e < 0 := h.resolve_left (by simp [hsq])
      refine ⟨⟨false, "Can only raise matrices to a positive power."⟩, ?_, rfl⟩
      rw [pow, if_neg (by simp [hsq]), if_neg (by omega : ¬ e = 0), if_pos hneg]
    · refine ⟨⟨false, "Can only raise square matrices to a power."⟩, ?_, rfl⟩
      rw [pow, if_pos hsq]

/-- Witness for C4: a concrete square matrix and exponent 4 give a result. -/
theorem C4_pow_fatal_conditions_witness :
    ∃ M, pow sampleA 4 = Except.ok M :=
  (C4_pow_fatal_conditions sampleA 4).1 rfl (by decide)

/-- Counterexample to C5: equality is not reflexive on the code, because the
element comparison is IEEE `!=` and `NaN != NaN` holds: the 1 × 1 matrix
built by the public API call `from_scalar(1, 1, f64::NAN)` does not compare
equal to itself. -/
theorem C5_counterexample :
    feq (ffrom_scalar 1 1 F64.nan) (ffrom_scalar 1 1 F64.nan) = false := by
  decide

/-- C5 as amended: equality holds iff the shapes are identical and every
corresponding element compares equal under IEEE floating-point equality; it
is symmetric and shape-sensitive (differing shapes are never equal regardless
of content, including zero-element matrices), and it is reflexive exactly on
matrices none of whose elements is NaN. -/
theorem C5_eq_structural_amended (a b : FMatrix) :
    (feq a b = true ↔ (a.shape = b.shape ∧
      ∀ i j, i < a.rows → j < a.cols →
        F64.beq (a.get i j) (b.get i j) = true)) ∧
    (a.nanFree = true → feq a a = true) ∧
    (feq a b = true → feq b a = true) ∧
    (a.shape ≠ b.shape → feq a b = false) := by
  refine ⟨feq_true_iff a b, ?_, ?_, ?_⟩
  · intro hn
    rw [feq_true_iff]
    refine ⟨rfl, ?_⟩
    intro i j hi hj
    exact F64.beq_refl ((nanFree_iff a).mp hn i j hi hj)
  · intro h
    rw [feq_true_iff] at h ⊢
    obtain ⟨hs, he⟩ := h
    have hr : a.rows = b.rows := congrArg Prod.fst hs
    have hc : a.cols = b.cols := congrArg Prod.snd hs
    refine ⟨hs.symm, ?_⟩
    intro i j hi hj
    rw [F64.beq_symm]
    exact he i j (by omega) (by omega)
  · intro h
    unfold feq
    rw [if_neg h]

/-- Witness for the amended C5: a NaN-free zero matrix equals itself, and a
2 × 3 zero matrix never equals a 2 × 2 zero matrix. -/
theorem C5_eq_structural_amended_witness :
    feq (ffrom_scalar 2 2 (F64.fin 0)) (ffrom_scalar 2 2 (F64.fin 0)) = true ∧
    feq (ffrom_scalar 2 3 (F64.fin 0)) (ffrom_scalar 2 2 (F64.fin 0)) = false :=
  ⟨(C5_eq_structural_amended (ffrom_scalar 2 2 (F64.fin 0))
      (ffrom_scalar 2 2 (F64.fin 0))).2.1 (by decide),
    (C5_eq_structural_amended (ffrom_scalar 2 3 (F64.fin 0))
      (ffrom_scalar 2 2 (F64.fin 0))).2.2.2 (by decide)⟩

/-- Counterexample to C6: under IEEE f64 the identity
`pow(A, a+b) == pow(A, a) * pow(A, b)` fails at the square matrix
`A = from_scalar(1, 1, f64::NAN)` with `a = 1`, `b = 0`: both sides evaluate
to the 1 × 1 NaN matrix, and the library's `==`, comparing NaN to NaN, is
false. (Any NaN produced by the computation, e.g. by overflow to
`inf + (-inf)` in `A*A`, triggers the same failure.) -/
theorem C6_counterexample :
    fpow (ffrom_scalar 1 1 F64.nan) (1 + 0) = Except.ok ⟨1, 1, [F64.nan]⟩ ∧
    fpow (ffrom_scalar 1 1 F64.nan) 1 = Except.ok ⟨1, 1, [F64.nan]⟩ ∧
    fpow (ffrom_scalar 1 1 F64.nan) 0 = Except.ok ⟨1, 1, [F64.fin 1]⟩ ∧
    fmul ⟨1, 1, [F64.nan]⟩ ⟨1, 1, [F64.fin 1]⟩ = Except.ok ⟨1, 1, [F64.nan]⟩ ∧
    feq ⟨1, 1, [F64.nan]⟩ ⟨1, 1, [F64.nan]⟩ = false := by
  have hmm : fmul (⟨1, 1, [F64.nan]⟩ : FMatrix) ⟨1, 1, [F64.nan]⟩ =
      Except.ok ⟨1, 1, [F64.nan]⟩ := rfl
  have hz : fpow_helper (⟨1, 1, [F64.nan]⟩ : FMatrix) 0 =
      Except.ok ⟨1, 1, [F64.fin 1]⟩ := by
    rw [fpow_helper.eq_def]
    rfl
  have hstep : fpow_helper (⟨1, 1, [F64.nan]⟩ : FMatrix) 1 =
      Except.ok ⟨1, 1, [F64.nan]⟩ := by
    rw [fpow_helper.eq_def]
    rw [dif_neg (by decide : ¬ (1 : Nat) = 0),
      if_neg (by decide : ¬ (1 : Nat) % 2 = 0), hmm]
    show Except.bind (fpow_helper (⟨1, 1, [F64.nan]⟩ : FMatrix) (1 / 2)) _ = _
    rw [(by decide : (1 : Nat) / 2 = 0), hz]
    rfl
  exact ⟨hstep, hstep, rfl, rfl, rfl⟩

/-- C6 as amended: the identity `pow(A, a+b) == pow(A, a) * pow(A, b)` for
every square matrix `A` and all non-negative integers `a`, `b` is the
exact-arithmetic algebraic content of the algorithm: it holds whenever the
elements are combined with exact arithmetic. Under IEEE f64 evaluation it can
fail as soon as a NaN arises (from NaN inputs, or from overflow to opposite
infinities during accumulation), since NaN never compares equal. The theorem
states the exact-arithmetic identity over the rational embedding. -/
theorem C6_pow_add (A : Matrix) (a b : Int) (hsq : A.rows = A.cols)
    (ha : 0 ≤ a) (hb : 0 ≤ b) :
    ∃ r s p t, pow A a = Except.ok r ∧ pow A b = Except.ok s ∧
      pow A (a + b) = Except.ok p ∧ mul r s = Except.ok t ∧ eq p t = true := by
  have hm : SqShape A.rows A := ⟨rfl, hsq.symm⟩
  have hr := sqShape_pow_helper_total (n := A.rows) a.toNat hm
  have hs := sqShape_pow_helper_total (n := A.rows) b.toNat hm
  have hp := sqShape_pow_helper_total (n := A.rows) (a + b).toNat hm
  refine ⟨_, _, _, _, pow_ok hm ha, pow_ok hm hb, pow_ok hm (by omega),
    mul_ok (hr.2.trans hs.1.symm), ?_⟩
  apply eq_of_toM hp (sqShape_mul_unchecked hr hs)
  rw [toM_mul_unchecked hr hs, toM_pow_helper_total _ hm, toM_pow_helper_total _ hm,
    toM_pow_helper_total _ hm, (by omega : (a + b).toNat = a.toNat + b.toNat), pow_add]

/-- Witness for C6 at `A = [[1, 2], [3, 4]]`, `a = 1`, `b = 2`. -/
theorem C6_pow_add_witness :
    ∃ r s p t, pow sampleA 1 = Except.ok r ∧ pow sampleA 2 = Except.ok s ∧
      pow sampleA (1 + 2) = Except.ok p ∧ mul r s = Except.ok t ∧ eq p t = true :=
  C6_pow_add sampleA 1 2 rfl (by decide) (by decide)

/-- C8: the invariant `data.length == rows * cols` holds for every matrix
produced by a constructor (`from_scalar`, `from_2d_vec`, `identity`) and is
preserved by addition, matrix multiplication, compound multiplication, scalar
multiplication, transpose, `pow` and element assignment. -/
theorem C8_length_invariant :
    (∀ r c (v : ℚ), (from_scalar r c v).data.length =
      (from_scalar r c v).rows * (from_scalar r c v).cols) ∧
    (∀ r c d M, from_2d_vec r c d = Except.ok M →
      M.data.length = M.rows * M.cols) ∧
    (∀ n, (identity n).data.length = (identity n).rows * (identity n).cols) ∧
    (∀ a b M, a.data.length = a.rows * a.cols → b.data.length = b.rows * b.cols →
      add a b = Except.ok M → M.data.length = M.rows * M.cols) ∧
    (∀ a b M, mul a b = Except.ok M → M.data.length = M.rows * M.cols) ∧
    (∀ a b M, mul_assign a b = Except.ok M → M.data.length = M.rows * M.cols) ∧
    (∀ a (s : ℚ), a.data.length = a.rows * a.cols →
      (mul_scalar a s).data.length = (mul_scalar a s).rows * (mul_scalar a s).cols) ∧
    (∀ a, (transpose a).data.length = (transpose a).rows * (transpose a).cols) ∧
    (∀ A (e : Int) M, pow A e = Except.ok M → M.data.length = M.rows * M.cols) ∧
    (∀ m i j (v : ℚ) m', m.data.length = m.rows * m.cols →
      index_set m i j v = Except.ok m' → m'.data.length = m'.rows * m'.cols) := by
  refine ⟨?_, ?_, ?_, ?_, ?_, ?_, ?_, ?_, ?_, ?_⟩
  · intro r c v
    simp [from_scalar, Nat.mul_comm]
  · intro r c d M h
    unfold from_2d_vec at h
    split_ifs at h with h1 h2
    injection h with h'
    rw [← h']
    show d.flatten.length = r * c
    have hlen : d.length = r := by omega
    have hrows : ∀ row ∈ d, row.length = c := by
      intro row hmem
      by_contra hne
      exact h2 (by rw [List.any_eq_true]; exact ⟨row, hmem, by simpa using hne⟩)
    rw [flatten_length_eq c d hrows, hlen]
  · intro n
    simp [identity, mkData_length]
  · intro a b M ha hb h
    unfold add at h
    split_ifs at h with hcond
    push_neg at hcond
    injection h with h'
    rw [← h']
    show (List.zipWith (fun x y => x + y) a.data b.data).length = a.rows * a.cols
    rw [List.length_zipWith, ha, hb, hcond.1, hcond.2, Nat.min_self]
  · intro a b M h
    rw [mul_eq_ok h]
    exact mul_unchecked_length a b
  · intro a b M h
    unfold mul_assign at h
    split_ifs at h
    injection h with h'
    rw [← h']
    exact mul_unchecked_length a b
  · intro a s h
    show (a.data.map (fun el => el * s)).length = a.rows * a.cols
    rw [List.length_map]
    exact h
  · intro a
    simp [transpose, mkData_length]
  · intro A e M h
    unfold pow at h
    split_ifs at h with h1 h2 h3
    · injection h with h'
      rw [← h']
      simp [identity, mkData_length]
    · exact pow_helper_length e.toNat A M h
  · intro m i j v m' hlen h
    unfold index_set at h
    split_ifs at h with hb
    injection h with h'
    rw [← h']
    show (m.data.set (i * m.cols + j) v).length = m.rows * m.cols
    rw [List.length_set]
    exact hlen

/-- Witness for C8: a concrete element assignment preserves the length
invariant. -/
theorem C8_length_invariant_witness :
    (⟨2, 2, [0, 5, 0, 0]⟩ : Matrix).data.length =
      (⟨2, 2, [0, 5, 0, 0]⟩ : Matrix).rows * (⟨2, 2, [0, 5, 0, 0]⟩ : Matrix).cols :=
  C8_length_invariant.2.2.2.2.2.2.2.2.2 (from_scalar 2 2 0) 0 1 5
    ⟨2, 2, [0, 5, 0, 0]⟩ rfl rfl

/-- C10: an in-bounds element assignment through the mutable accessor sets
exactly that element and leaves the shape and every other element unchanged. -/
theorem C10_index_set_frame (m : Matrix) (i j : Nat) (v : ℚ)
    (hlen : m.data.length = m.rows * m.cols) (hi : i < m.rows) (hj : j < m.cols) :
    ∃ m', index_set m i j v = Except.ok m' ∧
      m'.rows = m.rows ∧ m'.cols = m.cols ∧ m'.get i j = v ∧
      ∀ i' j', i' < m.rows → j' < m.cols → ¬ (i' = i ∧ j' = j) →
        m'.get i' j' = m.get i' j' := by
  have hidx : i * m.cols + j < m.data.length := by
    rw [hlen]
    calc i * m.cols + j < i * m.cols + m.cols := by omega
    _ = (i + 1) * m.cols := by ring
    _ ≤ m.rows * m.cols := Nat.mul_le_mul_right _ (by omega)
  refine ⟨{ m with data := m.data.set (i * m.cols + j) v }, ?_, rfl, rfl, ?_, ?_⟩
  · unfold index_set
    rw [if_pos ⟨hi, hj⟩]
  · show (m.data.set (i * m.cols + j) v).getD (i * m.cols + j) 0 = v
    exact getD_set_self hidx v 0
  · intro i' j' hi' hj' hne
    show (m.data.set (i * m.cols + j) v).getD (i' * m.cols + j') 0 = m.get i' j'
    apply getD_set_other
    intro hcontra
    exact hne ⟨(flat_index_inj hj hj' hcontra).1.symm, (flat_index_inj hj hj' hcontra).2.symm⟩

/-- Witness for C10: setting element (0, 1) of a concrete 2 × 2 matrix. -/
theorem C10_index_set_frame_witness :
    ∃ m', index_set (from_scalar 2 2 0) 0 1 5 = Except.ok m' ∧
      m'.rows = (from_scalar 2 2 0).rows ∧ m'.cols = (from_scalar 2 2 0).cols ∧
      m'.get 0 1 = 5 ∧
      ∀ i' j', i' < (from_scalar 2 2 0).rows → j' < (from_scalar 2 2 0).cols →
        ¬ (i' = 0 ∧ j' = 1) → m'.get i' j' = (from_scalar 2 2 0).get i' j' :=
  C10_index_set_frame (from_scalar 2 2 0) 0 1 5 rfl (by decide) (by decide)

end Linalg
